import Mathlib

/-!
Verification of the AgentAuth core identity / authentication functions:
a shallow embedding of `packages/agentauth-core/src/index.ts` (the functions
`parsePrivateKey`, `deriveAddress`, `generateId`, `signPayload`,
`verifySignature`) and of `packages/agentauth-sdk/src/index.ts` (`verify`).

The external cryptographic engine (the noble secp256k1 library and the
keccak-256 hash) is not code of this repository; it is modelled as an
abstract structure `Prims` of primitive operations, together with the
properties (`Good`) that the noble library documents and that the repository
relies on.  Everything the repository itself computes — prefix stripping,
hex validation, hex encoding and decoding, the JavaScript `parseInt`
recovery-byte parsing, header handling, the timestamp-freshness rule and
the UUIDv5 identifier derivation (SHA-1 based, implemented concretely) —
is embedded directly.

Strings are modelled as their character sequences (`String` / `List Char`);
JavaScript string functions (`slice`, `startsWith`, regular-expression
tests, `toLowerCase`) act on those sequences.  Functions that can throw are
given `Option` results (`none` = an exception), and the `try`/`catch`
blocks of the source become explicit `match`es on those options.
-/

namespace AgentAuth

set_option maxRecDepth 40000

/-! ## Hexadecimal characters, bytes and numbers -/

/-- Value of one hexadecimal digit (`0-9`, `a-f`, `A-F`), as matched by the
character class generated for the source's regexes `[0-9a-fA-F]`. -/
def hexVal? (c : Char) : Option Nat :=
  if '0' ≤ c ∧ c ≤ '9' then some (c.toNat - 48)
  else if 'a' ≤ c ∧ c ≤ 'f' then some (c.toNat - 87)
  else if 'A' ≤ c ∧ c ≤ 'F' then some (c.toNat - 55)
  else none

/-- Whether a character is a hexadecimal digit (`[0-9a-fA-F]`). -/
def isHexDigit (c : Char) : Bool := (hexVal? c).isSome

/-- Whether a character is a lowercase hexadecimal digit (`[0-9a-f]`). -/
def isLowerHexDigit (c : Char) : Bool :=
  ('0' ≤ c ∧ c ≤ '9') ∨ ('a' ≤ c ∧ c ≤ 'f')

/-- Two lowercase hex characters of one byte, as `Buffer.toString('hex')`
renders each byte (for bytes below 256). -/
def byteToHex (b : Nat) : List Char :=
  [Nat.digitChar (b / 16 % 16), Nat.digitChar (b % 16)]

/-- Lowercase hex string of a byte sequence: `Buffer.from(bytes).toString('hex')`. -/
def bytesToHex (bs : List Nat) : String :=
  ⟨(bs.map byteToHex).flatten⟩

/-- Bytes of a hex string taken two characters at a time:
`Buffer.from(hex, 'hex')` on an even-length, all-hex string. -/
def hexPairsToBytes : List Char → List Nat
  | c1 :: c2 :: rest =>
      (16 * (hexVal? c1).getD 0 + (hexVal? c2).getD 0) :: hexPairsToBytes rest
  | _ => []

/-- Numeric value of a sequence of hex digits, most significant first. -/
def parseHexNat (cs : List Char) : Nat :=
  cs.foldl (fun a c => 16 * a + (hexVal? c).getD 0) 0

/-- The characters ECMAScript's `StrWhiteSpace` trims: `WhiteSpace` (TAB,
VT, FF, SP, NBSP, ZWNBSP and the Zs category) and `LineTerminator` (LF, CR,
LS, PS).  Both `BigInt` string conversion and `parseInt` trim these. -/
def jsWhitespaceChars : List Char :=
  ['\t', '\n', Char.ofNat 11, Char.ofNat 12, '\r', ' ', Char.ofNat 0xa0,
   Char.ofNat 0x1680, Char.ofNat 0x2000, Char.ofNat 0x2001, Char.ofNat 0x2002,
   Char.ofNat 0x2003, Char.ofNat 0x2004, Char.ofNat 0x2005, Char.ofNat 0x2006,
   Char.ofNat 0x2007, Char.ofNat 0x2008, Char.ofNat 0x2009, Char.ofNat 0x200a,
   Char.ofNat 0x2028, Char.ofNat 0x2029, Char.ofNat 0x202f, Char.ofNat 0x205f,
   Char.ofNat 0x3000, Char.ofNat 0xfeff]

/-- Whether a character is JavaScript whitespace (`StrWhiteSpaceChar`). -/
def isJsWhitespace (c : Char) : Bool :=
  jsWhitespaceChars.contains c

/-- Removal of trailing JavaScript whitespace, as `StringToBigInt` performs
at the end of its input. -/
def trimEndWs (cs : List Char) : List Char :=
  (cs.reverse.dropWhile isJsWhitespace).reverse

/-- JavaScript `BigInt('0x' + s)` (a `StringIntegerLiteral` with the literal
`0x` prefix in front of `s`): leading whitespace cannot occur because the
string starts with `0`, trailing whitespace of `s` is trimmed, and the
remainder must be one or more hex digits — otherwise a `SyntaxError` is
thrown (`none`). -/
def bigIntHex? (cs : List Char) : Option Nat :=
  if trimEndWs cs ≠ [] ∧ (trimEndWs cs).all isHexDigit then
    some (parseHexNat (trimEndWs cs))
  else none

/-- Fixed-width lowercase big-endian hex rendering of a number, as produced
by noble's `toCompactHex` (width 64 per scalar) and by
`Number.toString(16).padStart(w, '0')` for in-range values. -/
def natToHexPad : Nat → Nat → List Char
  | _, 0 => []
  | n, w + 1 => natToHexPad (n / 16) w ++ [Nat.digitChar (n % 16)]

/-- Fixed-width big-endian byte rendering of a number. -/
def natToBytesBE : Nat → Nat → List Nat
  | _, 0 => []
  | n, w + 1 => natToBytesBE (n / 256) w ++ [n % 256]

/-- JavaScript `parseInt(s, 16)`: trims leading whitespace, takes an optional
sign, strips one `0x`/`0X`, then reads the longest prefix of hex digits;
`none` models the `NaN` result when no digit is read.  This prefix-parsing
is what the source uses on the two recovery-id characters of a signature. -/
def parseInt16 (s : String) : Option Int :=
  let cs := s.toList.dropWhile isJsWhitespace
  let signed : Int × List Char :=
    match cs with
    | '-' :: rest => (-1, rest)
    | '+' :: rest => (1, rest)
    | _ => (1, cs)
  let body : List Char :=
    match signed.2 with
    | '0' :: 'x' :: rest => rest
    | '0' :: 'X' :: rest => rest
    | _ => signed.2
  let digits := body.takeWhile isHexDigit
  if digits = [] then none else some (signed.1 * (parseHexNat digits : Int))

/-- JavaScript `toLowerCase` on the character range the address comparison
meets (ASCII letters; other characters are untouched). -/
def toLowerCase (s : String) : String :=
  ⟨s.data.map (fun c => if 'A' ≤ c ∧ c ≤ 'Z' then Char.ofNat (c.toNat + 32) else c)⟩

/-- UTF-8 encoding of one character (a Unicode scalar value). -/
def charUtf8 (c : Char) : List Nat :=
  let n := c.toNat
  if n < 128 then [n]
  else if n < 2048 then [192 + n / 64, 128 + n % 64]
  else if n < 65536 then [224 + n / 4096, 128 + n / 64 % 64, 128 + n % 64]
  else [240 + n / 262144, 128 + n / 4096 % 64, 128 + n / 64 % 64, 128 + n % 64]

/-- UTF-8 bytes of a string, the byte view the hash functions receive. -/
def strBytes (s : String) : List Nat :=
  (s.toList.map charUtf8).flatten

/-! ## SHA-1 and UUIDv5

`generateId` delegates to the `uuid` package's `v5`, which hashes the fixed
namespace UUID's bytes followed by the name's UTF-8 bytes with SHA-1 and
stamps the version/variant bits.  SHA-1 is implemented here concretely so
that identifier values are actual computed UUIDs. -/

/-- Left rotation of a 32-bit word. -/
def rotl32 (x n : Nat) : Nat :=
  ((x <<< n) ||| (x >>> (32 - n))) % 4294967296

/-- SHA-1 padding: a `0x80` byte, zeros to 56 mod 64, then the bit length
as eight big-endian bytes. -/
def sha1pad (msg : List Nat) : List Nat :=
  msg ++ [128] ++ List.replicate ((120 - ((msg.length + 1) % 64)) % 64) 0 ++
    natToBytesBE (msg.length * 8) 8

/-- Big-endian 32-bit words of a byte sequence. -/
def bytesToWords : List Nat → List Nat
  | b0 :: b1 :: b2 :: b3 :: rest =>
      (((b0 * 256 + b1) * 256 + b2) * 256 + b3) :: bytesToWords rest
  | _ => []

/-- Message-schedule extension of the 16 block words to 80 words. -/
def sha1extend (ws : List Nat) : List Nat :=
  (List.range 64).foldl
    (fun acc _ =>
      let n := acc.length
      acc ++ [rotl32 ((acc.getD (n - 3) 0) ^^^ (acc.getD (n - 8) 0) ^^^
                      (acc.getD (n - 14) 0) ^^^ (acc.getD (n - 16) 0)) 1])
    ws

/-- Round function of SHA-1. -/
def sha1f (i b c d : Nat) : Nat :=
  if i < 20 then (b &&& c) ||| ((4294967295 ^^^ b) &&& d)
  else if i < 40 then b ^^^ c ^^^ d
  else if i < 60 then (b &&& c) ||| (b &&& d) ||| (c &&& d)
  else b ^^^ c ^^^ d

/-- Round constants of SHA-1. -/
def sha1k (i : Nat) : Nat :=
  if i < 20 then 1518500249
  else if i < 40 then 1859775393
  else if i < 60 then 2400959708
  else 3395469782

/-- Compression of one 64-byte block into the running state. -/
def sha1block (h : Nat × Nat × Nat × Nat × Nat) (block : List Nat) :
    Nat × Nat × Nat × Nat × Nat :=
  let ws := sha1extend (bytesToWords block)
  let fin := (List.range 80).foldl
    (fun st i =>
      let (a, b, c, d, e) := st
      ((rotl32 a 5 + sha1f i b c d + e + sha1k i + ws.getD i 0) % 4294967296,
       a, rotl32 b 30, c, d))
    h
  ((h.1 + fin.1) % 4294967296,
   (h.2.1 + fin.2.1) % 4294967296,
   (h.2.2.1 + fin.2.2.1) % 4294967296,
   (h.2.2.2.1 + fin.2.2.2.1) % 4294967296,
   (h.2.2.2.2 + fin.2.2.2.2) % 4294967296)

/-- The 64-byte blocks of a padded message (the padded length is a
multiple of 64). -/
def chunks64 (bs : List Nat) : List (List Nat) :=
  (List.range ((bs.length + 63) / 64)).map (fun i => (bs.drop (64 * i)).take 64)

/-- SHA-1 digest (20 bytes) of a byte sequence. -/
def sha1 (msg : List Nat) : List Nat :=
  let st := (chunks64 (sha1pad msg)).foldl sha1block
    (1732584193, 4023233417, 2562383102, 271733878, 3285377520)
  natToBytesBE st.1 4 ++ natToBytesBE st.2.1 4 ++ natToBytesBE st.2.2.1 4 ++
    natToBytesBE st.2.2.2.1 4 ++ natToBytesBE st.2.2.2.2 4

/-- Bytes of a hyphenated UUID string (the `uuid` package's `parse`). -/
def parseUuidBytes (s : String) : List Nat :=
  hexPairsToBytes (s.toList.filter (fun c => c ≠ '-'))

/-- Hyphenated lowercase rendering of 16 UUID bytes (the `uuid` package's
`unsafeStringify` layout: 4-2-2-2-6 bytes). -/
def uuidStringify (bs : List Nat) : String :=
  bytesToHex (bs.take 4) ++ "-" ++ bytesToHex ((bs.drop 4).take 2) ++ "-" ++
  bytesToHex ((bs.drop 6).take 2) ++ "-" ++ bytesToHex ((bs.drop 8).take 2) ++ "-" ++
  bytesToHex ((bs.drop 10).take 6)

/-- Version-5 UUID of a name under a namespace (the `uuid` package's `v5`):
SHA-1 of namespace bytes then name bytes, version nibble forced to 5 and
variant bits to `10`. -/
def uuidv5 (name : String) (namespaceStr : String) : String :=
  let h := (sha1 (parseUuidBytes namespaceStr ++ strBytes name)).take 16
  let h6 := h.set 6 (((h.getD 6 0) &&& 15) ||| 80)
  let h8 := h6.set 8 (((h6.getD 8 0) &&& 63) ||| 128)
  uuidStringify h8

/-- Fixed namespace constant of `@agentauth/core` (`AGENTAUTH_NAMESPACE`). -/
def AGENTAUTH_NAMESPACE : String := "2f5a5c48-c283-4231-8975-9271fe11e86c"

/-- Embedding of `generateId` from `@agentauth/core`: the stable UUIDv5 of the
address string, exactly as supplied, under the fixed namespace. -/
def generateId (address : String) : String :=
  uuidv5 address AGENTAUTH_NAMESPACE

/-! ## The external cryptographic engine

The noble secp256k1 library and the keccak-256 hash are dependencies, not
code of this repository.  They are modelled as a structure of primitive
operations, abstract over the payload type (a payload reaches them only
through `JSON.stringify`).  An `Option` result records that the operation
can throw (`none`).  `Good` states the properties of these operations that
the noble library documents and the repository's code relies on. -/

/-- A recoverable ECDSA signature as noble represents it: scalars `r` and
`s` plus a recovery id (an `Int`, because the verification path feeds it a
JavaScript `parseInt` result that may be any integer). -/
structure Sig where
  r : Nat
  s : Nat
  recovery : Int
deriving DecidableEq, Repr

/-- The primitive operations the repository's code calls but does not
define: payload serialization (`JSON.stringify` / `JSON.parse`), base64
decoding, timestamp parsing (`new Date(payload.timestamp).getTime()`,
`none` standing for `NaN`), keccak-256, and the noble secp256k1 engine. -/
structure Prims (Payload : Type) where
  stringify : Payload → String
  jsonParse : String → Option Payload
  timestampMs : Payload → Option Int
  b64decode : String → String
  keccak256 : List Nat → List Nat
  getPublicKey : List Nat → Option (List Nat)
  sign : List Nat → List Nat → Option Sig
  recoverPublicKey : Sig → List Nat → Option (List Nat)

/-- Documented behaviour of the external engine: keccak-256 digests are 32
bytes; uncompressed public keys are 65 bytes; and deterministic signing of
any message hash under a key with a well-defined public key yields a
signature with 256-bit scalars and recovery id 0 or 1 from which noble
recovers exactly that public key. -/
structure Good {P : Type} (p : Prims P) : Prop where
  keccak_len : ∀ bs, (p.keccak256 bs).length = 32
  keccak_bytes : ∀ bs, ∀ b ∈ p.keccak256 bs, b < 256
  pub_len : ∀ k pub, p.getPublicKey k = some pub → pub.length = 65
  sign_spec : ∀ h k pub, p.getPublicKey k = some pub →
    ∃ sig, p.sign h k = some sig ∧ sig.r < 2 ^ 256 ∧ sig.s < 2 ^ 256 ∧
      (sig.recovery = 0 ∨ sig.recovery = 1) ∧ p.recoverPublicKey sig h = some pub

/-! ## The core functions of `@agentauth/core` -/

/-- The prefix stripping of `parsePrivateKey`:
`token.replace(/^(aa-|0x)/, '')` removes one leading `aa-`, else one
leading `0x`, else nothing. -/
def stripKeyTag (cs : List Char) : List Char :=
  if cs.take 3 = ['a', 'a', '-'] then cs.drop 3
  else if cs.take 2 = ['0', 'x'] then cs.drop 2
  else cs

/-- Embedding of `parsePrivateKey`: strip one recognized prefix, then
require exactly 64 hex characters (`/^[0-9a-fA-F]{64}$/`); `none` models
the thrown format error. -/
def parsePrivateKey (token : String) : Option String :=
  let clean := stripKeyTag token.data
  if clean.length = 64 ∧ clean.all isHexDigit then some ⟨clean⟩ else none

/-- The hash-and-truncate address rule appearing identically in
`deriveAddress` and `verifySignature`: drop the 1-byte format marker of the
uncompressed public key, hash the 64 coordinate bytes with keccak-256, keep
the last 20 digest bytes (`slice(-20)`), and render as `0x` + lowercase hex. -/
def addressOfPublicKey {P : Type} (p : Prims P) (pub : List Nat) : String :=
  let digest := p.keccak256 (pub.drop 1)
  "0x" ++ bytesToHex (digest.drop (digest.length - 20))

/-- Embedding of `deriveAddress`: parse the key, compute the uncompressed
public key, apply the hash-and-truncate rule; `none` models the thrown
derivation error (any inner throw is caught and rethrown). -/
def deriveAddress {P : Type} (p : Prims P) (privateKey : String) : Option String :=
  match parsePrivateKey privateKey with
  | none => none
  | some clean =>
    match p.getPublicKey (hexPairsToBytes clean.data) with
    | none => none
    | some pub => some (addressOfPublicKey p pub)

/-- Embedding of `signPayload`: keccak-256 of `JSON.stringify(payload)`,
deterministic ECDSA signature, rendered as `0x` + `r`(64 hex) + `s`(64 hex)
+ recovery id (2 hex); `none` models the thrown signing error. -/
def signPayload {P : Type} (p : Prims P) (payload : P) (privateKey : String) :
    Option String :=
  let messageHash := p.keccak256 (strBytes (p.stringify payload))
  match parsePrivateKey privateKey with
  | none => none
  | some clean =>
    match p.sign messageHash (hexPairsToBytes clean.data) with
    | none => none
    | some sig =>
        some ("0x" ++ ⟨natToHexPad sig.r 64 ++ natToHexPad sig.s 64 ++
          natToHexPad sig.recovery.toNat 2⟩)

/-- The test `/^0x[0-9a-fA-F]{40}$/.test(expectedAddress)`. -/
def addrFormatOk (s : String) : Bool :=
  match s.data with
  | '0' :: 'x' :: rest => rest.length == 40 && rest.all isHexDigit
  | _ => false

/-- The check `signature.startsWith('0x') && signature.length === 132`
(note: it does not require the 130 characters after `0x` to be hex). -/
def sigFormatOk (s : String) : Bool :=
  (match s.data with
   | '0' :: 'x' :: _ => true
   | _ => false) && s.length == 132

/-- Embedding of `verifySignature`: reject malformed address or signature
shapes, split `r`/`s`/recovery, parse them with `BigInt` and `parseInt`,
recover the signer's public key, derive its address and compare with the
expected address case-insensitively.  Every internal throw (`none` of a
primitive, bad `BigInt` input, `NaN` recovery) is caught and becomes
`false`, as the source's `try`/`catch` does. -/
def verifySignature {P : Type} (p : Prims P) (signature : String) (payload : P)
    (expectedAddress : String) : Bool :=
  if !addrFormatOk expectedAddress then false
  else if !sigFormatOk signature then false
  else
    let sigHex := signature.data.drop 2
    let rStr := sigHex.take 64
    let sStr := (sigHex.drop 64).take 64
    let recStr := (sigHex.drop 128).take 2
    match bigIntHex? rStr, bigIntHex? sStr with
    | some r, some s =>
      match parseInt16 ⟨recStr⟩ with
      | none => false
      | some recovery =>
        let messageHash := p.keccak256 (strBytes (p.stringify payload))
        match p.recoverPublicKey ⟨r, s, recovery⟩ messageHash with
        | none => false
        | some pub =>
            toLowerCase (addressOfPublicKey p pub) == toLowerCase expectedAddress
    | _, _ => false

/-! ## The `verify` entry point of `@agentauth/sdk` -/

/-- Result shape of `verify`. -/
structure VerificationResult where
  valid : Bool
  agentauth_id : Option String
deriving DecidableEq, Repr

/-- The three AgentAuth header values of a request
(`x-agentauth-address`, `x-agentauth-payload`, `x-agentauth-signature`);
`none` models an absent header. -/
structure AgentAuthRequest where
  address : Option String
  payload : Option String
  signature : Option String

/-- JavaScript falsiness of a header value: absent or the empty string. -/
def falsy : Option String → Bool
  | none => true
  | some s => s == ""

/-- Embedding of the SDK's `verify`: reject falsy headers; base64-decode
and JSON-parse the payload; check the signature against the address; apply
the freshness rule `Math.abs(now - timestamp) > freshness → reject`
(an unparseable timestamp is `NaN`, whose comparison is false, so it never
rejects); finally derive the stable identifier from the address header as
supplied.  Every internal throw collapses to `{valid: false}` through the
surrounding `try`/`catch`. -/
def verify {P : Type} (p : Prims P) (req : AgentAuthRequest)
    (freshness? : Option Int) (now : Int) : VerificationResult :=
  let freshness := freshness?.getD 60000
  if falsy req.address || falsy req.signature || falsy req.payload then ⟨false, none⟩
  else
    let agentauth_address := req.address.getD ""
    let signature := req.signature.getD ""
    let payloadB64 := req.payload.getD ""
    match p.jsonParse (p.b64decode payloadB64) with
    | none => ⟨false, none⟩
    | some payload =>
      if !verifySignature p signature payload agentauth_address then ⟨false, none⟩
      else
        let stale : Bool :=
          match p.timestampMs payload with
          | none => false
          | some t => ((now - t).natAbs : Int) > freshness
        if stale then ⟨false, none⟩
        else ⟨true, some (generateId agentauth_address)⟩

/-! ## Concrete model instances

Witnesses and counterexamples evaluate the embedded functions on a small
concrete instance of the external engine.  The instance is degenerate but
satisfies every property of `Good`, so anything the parametric theorems
guarantee holds for it.  Its payload type is `Int`: the decoded payload is
identified with its parsed timestamp value. -/

/-- A concrete engine whose payloads carry a parseable timestamp. -/
def toyTs : Prims Int where
  stringify _ := "p"
  jsonParse _ := some 0
  timestampMs t := some t
  b64decode s := s
  keccak256 _ := List.range 32
  getPublicKey _ := some (List.range 65)
  sign _ _ := some ⟨5, 6, 1⟩
  recoverPublicKey _ _ := some (List.range 65)

/-- A concrete engine whose payloads have no parseable timestamp
(`new Date(...)` yields `NaN`). -/
def toyNoTs : Prims Unit where
  stringify _ := "p"
  jsonParse _ := some ()
  timestampMs _ := none
  b64decode s := s
  keccak256 _ := List.range 32
  getPublicKey _ := some (List.range 65)
  sign _ _ := some ⟨5, 6, 1⟩
  recoverPublicKey _ _ := some (List.range 65)

theorem toyTs_good : Good toyTs := by
  refine ⟨fun bs => by simp [toyTs], fun bs b hb => ?_, fun k pub h => ?_,
    fun h k pub hpk => ?_⟩
  · simp [toyTs, List.mem_range] at hb
    omega
  · simp [toyTs] at h
    simp [← h]
  · refine ⟨⟨5, 6, 1⟩, rfl, by norm_num, by norm_num, Or.inr rfl, ?_⟩
    simpa [toyTs] using hpk

theorem toyNoTs_good : Good toyNoTs := by
  refine ⟨fun bs => by simp [toyNoTs], fun bs b hb => ?_, fun k pub h => ?_,
    fun h k pub hpk => ?_⟩
  · simp [toyNoTs, List.mem_range] at hb
    omega
  · simp [toyNoTs] at h
    simp [← h]
  · refine ⟨⟨5, 6, 1⟩, rfl, by norm_num, by norm_num, Or.inr rfl, ?_⟩
    simpa [toyNoTs] using hpk

/-- The repository's own test key, in its `aa-` form. -/
def cKey : String := "aa-2e6bea4b9180e920e209973473ce4b6d362e564e869917907a00bb1a50dddfca"

/-- The bare 64-hex scalar of `cKey`. -/
def cHex : String := "2e6bea4b9180e920e209973473ce4b6d362e564e869917907a00bb1a50dddfca"

/-- The address the concrete engines derive for every key:
`0x` + hex of bytes 12..31 of the digest `List.range 32`. -/
def cAddr : String := "0x0c0d0e0f101112131415161718191a1b1c1d1e1f"

/-- The same address with its hex letters uppercased. -/
def cAddrUp : String := "0x0C0D0E0F101112131415161718191A1B1C1D1E1F"

/-- The signature string the concrete engines produce
(`r` = 5, `s` = 6, recovery id 1). -/
def cSig : String :=
  "0x" ++ ⟨natToHexPad 5 64 ++ natToHexPad 6 64 ++ natToHexPad 1 2⟩

/-! ## Lemmas about hex encoding and decoding -/

theorem hexVal?_digitChar {d : Nat} (h : d < 16) :
    hexVal? (Nat.digitChar d) = some d := by
  interval_cases d <;> rfl

theorem isHexDigit_digitChar {d : Nat} (h : d < 16) :
    isHexDigit (Nat.digitChar d) = true := by
  simp [isHexDigit, hexVal?_digitChar h]

theorem isLowerHexDigit_digitChar {d : Nat} (h : d < 16) :
    isLowerHexDigit (Nat.digitChar d) = true := by
  interval_cases d <;> rfl

theorem natToHexPad_length (n w : Nat) : (natToHexPad n w).length = w := by
  induction w generalizing n with
  | zero => rfl
  | succ w ih => simp [natToHexPad, ih]

theorem natToHexPad_hex (n w : Nat) :
    ∀ c ∈ natToHexPad n w, isHexDigit c = true := by
  induction w generalizing n with
  | zero => simp [natToHexPad]
  | succ w ih =>
    intro c hc
    rw [natToHexPad, List.mem_append] at hc
    rcases hc with hc | hc
    · exact ih _ c hc
    · rw [List.mem_singleton] at hc
      exact hc ▸ isHexDigit_digitChar (Nat.mod_lt _ (by norm_num))

theorem parseHexNat_append_digit (cs : List Char) (c : Char) :
    parseHexNat (cs ++ [c]) = 16 * parseHexNat cs + (hexVal? c).getD 0 := by
  simp [parseHexNat, List.foldl_append]

theorem parseHexNat_natToHexPad {n w : Nat} (h : n < 16 ^ w) :
    parseHexNat (natToHexPad n w) = n := by
  induction w generalizing n with
  | zero =>
    have : n = 0 := by simpa using h
    simp [this, natToHexPad, parseHexNat]
  | succ w ih =>
    have hdiv : n / 16 < 16 ^ w := by
      rw [Nat.div_lt_iff_lt_mul (by norm_num)]
      calc n < 16 ^ (w + 1) := h
        _ = 16 ^ w * 16 := by ring
    rw [natToHexPad, parseHexNat_append_digit, ih hdiv,
      hexVal?_digitChar (Nat.mod_lt _ (by norm_num))]
    simp
    omega

theorem isJsWhitespace_digitChar {d : Nat} (h : d < 16) :
    isJsWhitespace (Nat.digitChar d) = false := by
  interval_cases d <;> decide

theorem trimEndWs_natToHexPad (n w : Nat) :
    trimEndWs (natToHexPad n (w + 1)) = natToHexPad n (w + 1) := by
  have hchar : isJsWhitespace (Nat.digitChar (n % 16)) = false :=
    isJsWhitespace_digitChar (Nat.mod_lt _ (by norm_num))
  unfold trimEndWs
  rw [natToHexPad, List.reverse_append, List.reverse_singleton,
    List.singleton_append, List.dropWhile_cons, if_neg (by simp [hchar]),
    List.reverse_cons, List.reverse_reverse]

theorem bigIntHex?_natToHexPad {n : Nat} (h : n < 16 ^ 64) :
    bigIntHex? (natToHexPad n 64) = some n := by
  have htrim : trimEndWs (natToHexPad n 64) = natToHexPad n 64 :=
    trimEndWs_natToHexPad n 63
  rw [bigIntHex?, htrim, if_pos, parseHexNat_natToHexPad h]
  refine ⟨fun hnil => ?_, ?_⟩
  · have := natToHexPad_length n 64
    rw [hnil] at this
    simp at this
  · rw [List.all_eq_true]
    exact natToHexPad_hex n 64

theorem byteToHex_mem {c : Char} {b : Nat} (hc : c ∈ byteToHex b) :
    ∃ d, d < 16 ∧ c = Nat.digitChar d := by
  simp only [byteToHex, List.mem_cons, List.not_mem_nil, or_false] at hc
  rcases hc with hc | hc
  · exact ⟨b / 16 % 16, Nat.mod_lt _ (by norm_num), hc⟩
  · exact ⟨b % 16, Nat.mod_lt _ (by norm_num), hc⟩

theorem bytesToHex_data (bs : List Nat) :
    (bytesToHex bs).data = (bs.map byteToHex).flatten := rfl

theorem bytesToHex_length (bs : List Nat) :
    (bytesToHex bs).length = 2 * bs.length := by
  induction bs with
  | nil => rfl
  | cons b tl ih =>
    show ((b :: tl).map byteToHex).flatten.length = _
    rw [List.map_cons, List.flatten_cons, List.length_append]
    have : (tl.map byteToHex).flatten.length = 2 * tl.length := ih
    rw [this]
    simp [byteToHex]
    ring

theorem bytesToHex_lower (bs : List Nat) :
    ∀ c ∈ (bytesToHex bs).data, isLowerHexDigit c = true := by
  intro c hc
  rw [bytesToHex_data, List.mem_flatten] at hc
  obtain ⟨l, hl, hcl⟩ := hc
  rw [List.mem_map] at hl
  obtain ⟨b, _, rfl⟩ := hl
  obtain ⟨d, hd, rfl⟩ := byteToHex_mem hcl
  exact isLowerHexDigit_digitChar hd

theorem bytesToHex_hex (bs : List Nat) :
    ∀ c ∈ (bytesToHex bs).data, isHexDigit c = true := by
  intro c hc
  rw [bytesToHex_data, List.mem_flatten] at hc
  obtain ⟨l, hl, hcl⟩ := hc
  rw [List.mem_map] at hl
  obtain ⟨b, _, rfl⟩ := hl
  obtain ⟨d, hd, rfl⟩ := byteToHex_mem hcl
  exact isHexDigit_digitChar hd

/-! ## Lemmas about key parsing -/

theorem stripKeyTag_aa (rest : List Char) :
    stripKeyTag ('a' :: 'a' :: '-' :: rest) = rest := rfl

theorem stripKeyTag_0x (rest : List Char) :
    stripKeyTag ('0' :: 'x' :: rest) = rest := rfl

theorem stripKeyTag_bare {cs : List Char} (h3 : cs.take 3 ≠ ['a', 'a', '-'])
    (h2 : cs.take 2 ≠ ['0', 'x']) : stripKeyTag cs = cs := by
  simp [stripKeyTag, h3, h2]

theorem data_aa_append (r : String) :
    ("aa-" ++ r).data = 'a' :: 'a' :: '-' :: r.data := by
  rw [String.data_append]
  rfl

theorem data_0x_append (r : String) :
    ("0x" ++ r).data = '0' :: 'x' :: r.data := by
  rw [String.data_append]
  rfl

/-- C7: `parsePrivateKey` succeeds, returning the 64-character hex remainder,
exactly on the three accepted shapes — an `aa-` prefix, a `0x` prefix, or no
prefix, each followed by 64 case-insensitive hex characters; at most one
recognized prefix is stripped, and every other input shape throws. -/
theorem parsePrivateKey_characterization (t r : String) :
    parsePrivateKey t = some r ↔
      r.length = 64 ∧ r.data.all isHexDigit = true ∧
        (t = "aa-" ++ r ∨ t = "0x" ++ r ∨ t = r) := by
  constructor
  · intro h
    simp only [parsePrivateKey] at h
    split at h
    case isFalse => exact absurd h (by simp)
    case isTrue hcond =>
      have hr : r = ⟨stripKeyTag t.data⟩ := ((Option.some.injEq _ _).mp h).symm
      have hrdata : r.data = stripKeyTag t.data := by rw [hr]
      refine ⟨?_, ?_, ?_⟩
      · show r.data.length = 64
        rw [hrdata]
        exact hcond.1
      · rw [hrdata]
        exact hcond.2
      · by_cases h3 : t.data.take 3 = ['a', 'a', '-']
        · left
          apply String.ext
          have hdrop : stripKeyTag t.data = t.data.drop 3 := by
            simp [stripKeyTag, h3]
          rw [data_aa_append, hrdata, hdrop]
          conv_lhs => rw [← List.take_append_drop 3 t.data, h3]
          rfl
        · by_cases h2 : t.data.take 2 = ['0', 'x']
          · right; left
            apply String.ext
            have hdrop : stripKeyTag t.data = t.data.drop 2 := by
              simp [stripKeyTag, h3, h2]
            rw [data_0x_append, hrdata, hdrop]
            conv_lhs => rw [← List.take_append_drop 2 t.data, h2]
            rfl
          · right; right
            apply String.ext
            rw [hrdata, stripKeyTag_bare h3 h2]
  · rintro ⟨hlen, hhex, rfl | rfl | rfl⟩
    · have hdata : ("aa-" ++ r).data = 'a' :: 'a' :: '-' :: r.data := data_aa_append r
      simp only [parsePrivateKey, hdata, stripKeyTag_aa]
      rw [if_pos]
      exact ⟨hlen, hhex⟩
    · have hdata : ("0x" ++ r).data = '0' :: 'x' :: r.data := data_0x_append r
      simp only [parsePrivateKey, hdata, stripKeyTag_0x]
      rw [if_pos]
      exact ⟨hlen, hhex⟩
    · have h3 : t.data.take 3 ≠ ['a', 'a', '-'] := by
        intro hc
        have hmem : '-' ∈ t.data := List.take_subset 3 t.data (hc ▸ (by decide))
        have := List.all_eq_true.mp hhex '-' hmem
        exact absurd this (by decide)
      have h2 : t.data.take 2 ≠ ['0', 'x'] := by
        intro hc
        have hmem : 'x' ∈ t.data := List.take_subset 2 t.data (hc ▸ (by decide))
        have := List.all_eq_true.mp hhex 'x' hmem
        exact absurd this (by decide)
      simp only [parsePrivateKey, stripKeyTag_bare h3 h2]
      rw [if_pos]
      exact ⟨hlen, hhex⟩

/-- C8: `deriveAddress` is insensitive to the textual encoding of the key —
the `aa-`-prefixed, `0x`-prefixed and bare renderings of the same 64-hex
scalar derive the identical address — and, being a pure function, repeated
calls return the same value. -/
theorem deriveAddress_format_independent {P : Type} (p : Prims P) (s : String)
    (hlen : s.length = 64) (hhex : s.data.all isHexDigit = true) :
    deriveAddress p ("aa-" ++ s) = deriveAddress p s ∧
    deriveAddress p ("0x" ++ s) = deriveAddress p s ∧
    deriveAddress p s = deriveAddress p s := by
  have h1 : parsePrivateKey ("aa-" ++ s) = some s :=
    (parsePrivateKey_characterization _ _).mpr ⟨hlen, hhex, Or.inl rfl⟩
  have h2 : parsePrivateKey ("0x" ++ s) = some s :=
    (parsePrivateKey_characterization _ _).mpr ⟨hlen, hhex, Or.inr (Or.inl rfl)⟩
  have h3 : parsePrivateKey s = some s :=
    (parsePrivateKey_characterization _ _).mpr ⟨hlen, hhex, Or.inr (Or.inr rfl)⟩
  refine ⟨?_, ?_, rfl⟩ <;> simp only [deriveAddress, h1, h2, h3]

/-- Witness for C8 at the repository's own test scalar in the concrete model. -/
theorem deriveAddress_format_independent_witness :
    deriveAddress toyTs ("aa-" ++ cHex) = deriveAddress toyTs cHex ∧
    deriveAddress toyTs ("0x" ++ cHex) = deriveAddress toyTs cHex ∧
    deriveAddress toyTs cHex = deriveAddress toyTs cHex :=
  deriveAddress_format_independent toyTs cHex (by decide) (by decide)

/-! ## Lemmas about the derived address -/

theorem bytesToHex_data_length (bs : List Nat) :
    (bytesToHex bs).data.length = 2 * bs.length :=
  bytesToHex_length bs

theorem addrFormatOk_addressOfPublicKey {P : Type} {p : Prims P} (g : Good p)
    (pub : List Nat) : addrFormatOk (addressOfPublicKey p pub) = true := by
  have hlen : ((p.keccak256 (pub.drop 1)).drop
      ((p.keccak256 (pub.drop 1)).length - 20)).length = 20 := by
    rw [List.length_drop, g.keccak_len]
  simp only [addrFormatOk, addressOfPublicKey, data_0x_append]
  rw [Bool.and_eq_true]
  constructor
  · rw [Nat.beq_eq_true_eq, bytesToHex_data_length, hlen]
  · rw [List.all_eq_true]
    exact bytesToHex_hex _

theorem deriveAddress_inv {P : Type} {p : Prims P} {key addr : String}
    (h : deriveAddress p key = some addr) :
    ∃ clean pub, parsePrivateKey key = some clean ∧
      p.getPublicKey (hexPairsToBytes clean.data) = some pub ∧
      addr = addressOfPublicKey p pub := by
  unfold deriveAddress at h
  split at h
  case h_1 => exact absurd h (by simp)
  case h_2 clean hpk =>
    split at h
    case h_1 => exact absurd h (by simp)
    case h_2 pub hgp =>
      exact ⟨clean, pub, hpk, hgp, ((Option.some.injEq _ _).mp h).symm⟩

/-- C6: every address `deriveAddress` returns is `0x` followed by exactly 40
lowercase hex characters, and is computed as the last 20 bytes of the
keccak-256 digest of the 64 public-key coordinate bytes, the 1-byte
uncompressed-point marker having been discarded. -/
theorem deriveAddress_shape {P : Type} (p : Prims P) (g : Good p)
    (key addr : String) (h : deriveAddress p key = some addr) :
    ∃ clean pub, parsePrivateKey key = some clean ∧
      p.getPublicKey (hexPairsToBytes clean.data) = some pub ∧
      pub.length = 65 ∧ (pub.drop 1).length = 64 ∧
      (p.keccak256 (pub.drop 1)).length = 32 ∧
      addr = "0x" ++ bytesToHex ((p.keccak256 (pub.drop 1)).drop 12) ∧
      ((p.keccak256 (pub.drop 1)).drop 12).length = 20 ∧
      addr.length = 42 ∧ addr.data.take 2 = ['0', 'x'] ∧
      (addr.data.drop 2).length = 40 ∧
      (∀ c ∈ addr.data.drop 2, isLowerHexDigit c = true) := by
  obtain ⟨clean, pub, hpk, hgp, haddr⟩ := deriveAddress_inv h
  have hklen : (p.keccak256 (pub.drop 1)).length = 32 := g.keccak_len _
  have hpub : pub.length = 65 := g.pub_len _ _ hgp
  have hdrop12 : (p.keccak256 (pub.drop 1)).drop
      ((p.keccak256 (pub.drop 1)).length - 20) =
      (p.keccak256 (pub.drop 1)).drop 12 := by
    rw [hklen]
  have haddr' : addr = "0x" ++ bytesToHex ((p.keccak256 (pub.drop 1)).drop 12) := by
    rw [haddr]
    simp only [addressOfPublicKey]
    rw [hdrop12]
  have hlen20 : ((p.keccak256 (pub.drop 1)).drop 12).length = 20 := by
    rw [List.length_drop, hklen]
  have hdata : addr.data =
      '0' :: 'x' :: (bytesToHex ((p.keccak256 (pub.drop 1)).drop 12)).data := by
    rw [haddr', data_0x_append]
  refine ⟨clean, pub, hpk, hgp, hpub, ?_, hklen, haddr', hlen20, ?_, ?_, ?_, ?_⟩
  · rw [List.length_drop, hpub]
  · show addr.data.length = 42
    rw [hdata, List.length_cons, List.length_cons, bytesToHex_data_length, hlen20]
  · rw [hdata]
    rfl
  · rw [hdata]
    show (bytesToHex ((p.keccak256 (pub.drop 1)).drop 12)).data.length = 40
    rw [bytesToHex_data_length, hlen20]
  · rw [hdata]
    show ∀ c ∈ (bytesToHex ((p.keccak256 (pub.drop 1)).drop 12)).data,
      isLowerHexDigit c = true
    intro c hc
    exact bytesToHex_lower _ c hc

/-- Witness for C6: the concrete model engine and the repository's test key. -/
theorem deriveAddress_shape_witness :
    ∃ clean pub, parsePrivateKey cKey = some clean ∧
      toyTs.getPublicKey (hexPairsToBytes clean.data) = some pub ∧
      pub.length = 65 ∧ (pub.drop 1).length = 64 ∧
      (toyTs.keccak256 (pub.drop 1)).length = 32 ∧
      cAddr = "0x" ++ bytesToHex ((toyTs.keccak256 (pub.drop 1)).drop 12) ∧
      ((toyTs.keccak256 (pub.drop 1)).drop 12).length = 20 ∧
      cAddr.length = 42 ∧ cAddr.data.take 2 = ['0', 'x'] ∧
      (cAddr.data.drop 2).length = 40 ∧
      (∀ c ∈ cAddr.data.drop 2, isLowerHexDigit c = true) :=
  deriveAddress_shape toyTs toyTs_good cKey cAddr (by decide)

/-! ## The sign/verify round trip -/

theorem signPayload_inv {P : Type} {p : Prims P} {payload : P} {key sigStr : String}
    (h : signPayload p payload key = some sigStr) :
    ∃ clean sig, parsePrivateKey key = some clean ∧
      p.sign (p.keccak256 (strBytes (p.stringify payload)))
        (hexPairsToBytes clean.data) = some sig ∧
      sigStr = "0x" ++ ⟨natToHexPad sig.r 64 ++ natToHexPad sig.s 64 ++
        natToHexPad sig.recovery.toNat 2⟩ := by
  simp only [signPayload] at h
  split at h
  case h_1 => exact absurd h (by simp)
  case h_2 clean hpk =>
    split at h
    case h_1 => exact absurd h (by simp)
    case h_2 sig hsign =>
      exact ⟨clean, sig, hpk, hsign, ((Option.some.injEq _ _).mp h).symm⟩

theorem parseInt16_recovery {v : Int} (h : v = 0 ∨ v = 1) :
    parseInt16 ⟨natToHexPad v.toNat 2⟩ = some v := by
  rcases h with rfl | rfl <;> rfl

/-- C1: the round trip — any payload signed with a valid private key
verifies against the address derived from that key. -/
theorem signPayload_verifies {P : Type} (p : Prims P) (g : Good p) (payload : P)
    (key addr sigStr : String)
    (hA : deriveAddress p key = some addr)
    (hS : signPayload p payload key = some sigStr) :
    verifySignature p sigStr payload addr = true := by
  obtain ⟨clean, pub, hpk, hgp, haddr⟩ := deriveAddress_inv hA
  obtain ⟨clean2, sig, hpk2, hsign, hsigStr⟩ := signPayload_inv hS
  rw [hpk] at hpk2
  have hcl : clean2 = clean := ((Option.some.injEq _ _).mp hpk2).symm
  rw [hcl] at hsign
  obtain ⟨sig2, hsig2, hr, hs, hrec, hrecover⟩ :=
    g.sign_spec (p.keccak256 (strBytes (p.stringify payload)))
      (hexPairsToBytes clean.data) pub hgp
  rw [hsign] at hsig2
  have hsg : sig2 = sig := ((Option.some.injEq _ _).mp hsig2).symm
  rw [hsg] at hr hs hrec hrecover
  have hAlen : (natToHexPad sig.r 64).length = 64 := natToHexPad_length _ _
  have hBlen : (natToHexPad sig.s 64).length = 64 := natToHexPad_length _ _
  have hClen : (natToHexPad sig.recovery.toNat 2).length = 2 := natToHexPad_length _ _
  have hdata : sigStr.data = '0' :: 'x' :: (natToHexPad sig.r 64 ++
      natToHexPad sig.s 64 ++ natToHexPad sig.recovery.toNat 2) := by
    rw [hsigStr]
    exact data_0x_append _
  have hslen : sigStr.length = 132 := by
    show sigStr.data.length = 132
    rw [hdata, List.length_cons, List.length_cons, List.length_append,
      List.length_append, hAlen, hBlen, hClen]
  have hfmtA : addrFormatOk addr = true :=
    haddr ▸ addrFormatOk_addressOfPublicKey g pub
  have hfmtS : sigFormatOk sigStr = true := by
    simp only [sigFormatOk, hdata, hslen]
    rfl
  have h16 : (16 : Nat) ^ 64 = 2 ^ 256 := by
    rw [show (16 : Nat) = 2 ^ 4 from rfl, ← pow_mul]
  have hsplitR : (natToHexPad sig.r 64 ++ natToHexPad sig.s 64 ++
      natToHexPad sig.recovery.toNat 2).take 64 = natToHexPad sig.r 64 := by
    rw [List.append_assoc, List.take_left' hAlen]
  have hsplitS : ((natToHexPad sig.r 64 ++ natToHexPad sig.s 64 ++
      natToHexPad sig.recovery.toNat 2).drop 64).take 64 = natToHexPad sig.s 64 := by
    rw [List.append_assoc, List.drop_left' hAlen, List.take_left' hBlen]
  have hsplitC : ((natToHexPad sig.r 64 ++ natToHexPad sig.s 64 ++
      natToHexPad sig.recovery.toNat 2).drop 128).take 2 =
      natToHexPad sig.recovery.toNat 2 := by
    have h128 : (natToHexPad sig.r 64 ++ natToHexPad sig.s 64).length = 128 := by
      rw [List.length_append, hAlen, hBlen]
    rw [List.drop_left' h128, List.take_of_length_le (le_of_eq hClen)]
  have hbigR : bigIntHex? (natToHexPad sig.r 64) = some sig.r :=
    bigIntHex?_natToHexPad (h16 ▸ hr)
  have hbigS : bigIntHex? (natToHexPad sig.s 64) = some sig.s :=
    bigIntHex?_natToHexPad (h16 ▸ hs)
  have hparseC : parseInt16 ⟨natToHexPad sig.recovery.toNat 2⟩ = some sig.recovery :=
    parseInt16_recovery hrec
  have hsigEta : (⟨sig.r, sig.s, sig.recovery⟩ : Sig) = sig := rfl
  simp only [verifySignature, hfmtA, hfmtS, Bool.not_true, Bool.false_eq_true,
    if_false, hdata, List.drop_succ_cons, List.drop_zero, hsplitR, hsplitS,
    hsplitC, hbigR, hbigS, hparseC, hsigEta, hrecover]
  rw [haddr]
  simp

/-- Witness for C1: the concrete engine, the repository's test key and the
payload `0`. -/
theorem signPayload_verifies_witness : verifySignature toyTs cSig 0 cAddr = true :=
  signPayload_verifies toyTs toyTs_good 0 cKey cAddr cSig (by decide) (by decide)

/-! ## The `verify` pipeline -/

/-- The concrete request used by witnesses: lowercase address header, an
arbitrary nonempty payload header (the concrete engines parse anything),
and the signature the concrete engines produce. -/
def cReq : AgentAuthRequest := ⟨some cAddr, some "x", some cSig⟩

/-- Evaluation of `verify` on a request that reaches the timestamp check:
headers present and truthy, payload decodes, signature verifies. -/
theorem verify_success_eval {P : Type} {p : Prims P} {req : AgentAuthRequest}
    {f? : Option Int} {now : Int} {a b c : String} {payload : P}
    (ha : req.address = some a) (ha' : (a == "") = false)
    (hs : req.signature = some b) (hs' : (b == "") = false)
    (hp : req.payload = some c) (hp' : (c == "") = false)
    (hjson : p.jsonParse (p.b64decode c) = some payload)
    (hsig : verifySignature p b payload a = true) :
    verify p req f? now =
      if (match p.timestampMs payload with
          | none => false
          | some t => decide (((now - t).natAbs : Int) > f?.getD 60000)) = true
      then ⟨false, none⟩
      else ⟨true, some (generateId a)⟩ := by
  simp only [verify, ha, hs, hp, falsy, ha', hs', hp', Bool.or_self,
    Option.getD_some, hjson, hsig, Bool.not_true, Bool.false_eq_true,
    if_false]

/-- C2 (amended): on a request whose signature verifies and whose timestamp
parses, `verify` accepts exactly when the absolute difference between the
timestamp and the current time is at most the freshness window — a
difference exactly equal to the window is accepted, one millisecond inside
is accepted, and rejection happens only when the difference strictly
exceeds the window. -/
theorem verify_freshness_boundary {P : Type} {p : Prims P} {req : AgentAuthRequest}
    {f? : Option Int} {now : Int} {a b c : String} {payload : P} {t : Int}
    (ha : req.address = some a) (ha' : (a == "") = false)
    (hs : req.signature = some b) (hs' : (b == "") = false)
    (hp : req.payload = some c) (hp' : (c == "") = false)
    (hjson : p.jsonParse (p.b64decode c) = some payload)
    (hsig : verifySignature p b payload a = true)
    (hts : p.timestampMs payload = some t) :
    ((verify p req f? now).valid = true ↔
      ((now - t).natAbs : Int) ≤ f?.getD 60000) ∧
    ((verify p req f? now).valid = true →
      verify p req f? now = ⟨true, some (generateId a)⟩) := by
  rw [verify_success_eval ha ha' hs hs' hp hp' hjson hsig]
  rw [hts]
  by_cases hle : ((now - t).natAbs : Int) ≤ f?.getD 60000
  · rw [if_neg (by simpa using hle)]
    exact ⟨⟨fun _ => hle, fun _ => rfl⟩, fun _ => rfl⟩
  · rw [if_pos (by simpa using hle)]
    refine ⟨⟨fun hv => absurd hv (by simp), fun hv => absurd hv hle⟩, ?_⟩
    intro hv
    exact absurd hv (by simp)

/-- Witness for C2's amended theorem: the concrete boundary request, whose
timestamp difference is exactly the window. -/
theorem verify_freshness_boundary_witness :
    ((verify toyTs cReq none 60000).valid = true ↔
      (((60000 : Int) - 0).natAbs : Int) ≤ (none : Option Int).getD 60000) ∧
    ((verify toyTs cReq none 60000).valid = true →
      verify toyTs cReq none 60000 = ⟨true, some (generateId cAddr)⟩) :=
  verify_freshness_boundary rfl (by decide) rfl (by decide) rfl (by decide)
    rfl (by decide) rfl

/-- Counterexample to C2 as stated: a request whose timestamp age is exactly
the freshness window (timestamp 0, current time 60000, window 60000) is
accepted with an identifier, not rejected. -/
theorem verify_freshness_exact_cex :
    toyTs.timestampMs 0 = some 0 ∧
    (none : Option Int).getD 60000 = 60000 ∧
    (((60000 : Int) - 0).natAbs : Int) = 60000 ∧
    verify toyTs cReq none 60000 = ⟨true, some (generateId cAddr)⟩ := by
  refine ⟨rfl, rfl, rfl, ?_⟩
  have hjson : toyTs.jsonParse (toyTs.b64decode "x") = some 0 := rfl
  have hsig : verifySignature toyTs cSig 0 cAddr = true := by decide
  rw [verify_success_eval rfl (by decide) rfl (by decide) rfl (by decide)
    hjson hsig]
  rfl

/-- C3: an absent or unparseable timestamp (`NaN`) never trips the freshness
comparison — for every freshness window, a request with a valid signature
and an unparseable timestamp is accepted with an identifier, so replay
protection is bypassed rather than the request rejected. -/
theorem verify_nan_timestamp {P : Type} {p : Prims P} {req : AgentAuthRequest}
    {f? : Option Int} {now : Int} {a b c : String} {payload : P}
    (ha : req.address = some a) (ha' : (a == "") = false)
    (hs : req.signature = some b) (hs' : (b == "") = false)
    (hp : req.payload = some c) (hp' : (c == "") = false)
    (hjson : p.jsonParse (p.b64decode c) = some payload)
    (hsig : verifySignature p b payload a = true)
    (hts : p.timestampMs payload = none) :
    verify p req f? now = ⟨true, some (generateId a)⟩ := by
  rw [verify_success_eval ha ha' hs hs' hp hp' hjson hsig, hts]
  rfl

/-- Witness for C3: the concrete engine without timestamps accepts even with
a zero-width freshness window and an arbitrary clock. -/
theorem verify_nan_timestamp_witness :
    verify toyNoTs ⟨some cAddr, some "x", some cSig⟩ (some 0) 123456789 =
      ⟨true, some (generateId cAddr)⟩ :=
  verify_nan_timestamp rfl (by decide) rfl (by decide) rfl (by decide)
    rfl (by decide) rfl

/-- C4: `verify` is total — for every combination of header values it
returns a well-formed result, either the bare failure record or a success
record carrying an identifier; no input makes it throw (every internal
failure is caught by its `try`/`catch`). -/
theorem verify_total_wellformed {P : Type} (p : Prims P) (req : AgentAuthRequest)
    (f? : Option Int) (now : Int) :
    verify p req f? now = ⟨false, none⟩ ∨
      ∃ i, verify p req f? now = ⟨true, some i⟩ := by
  simp only [verify]
  split
  · exact Or.inl rfl
  · split
    · exact Or.inl rfl
    · split
      · exact Or.inl rfl
      · split
        · exact Or.inl rfl
        · exact Or.inr ⟨_, rfl⟩

/-- C5: the two result shapes of `verify` — the identifier is present if and
only if `valid` is true; every failure, whatever its cause, is the identical
record `{valid := false}` with no identifier; every success carries the
stable identifier of the supplied address header. -/
theorem verify_result_shape {P : Type} (p : Prims P) (req : AgentAuthRequest)
    (f? : Option Int) (now : Int) :
    (verify p req f? now).agentauth_id.isSome = (verify p req f? now).valid ∧
    ((verify p req f? now).valid = true →
      verify p req f? now = ⟨true, some (generateId (req.address.getD ""))⟩) ∧
    ((verify p req f? now).valid = false →
      verify p req f? now = ⟨false, none⟩) := by
  simp only [verify]
  split
  · exact ⟨rfl, fun hv => absurd hv (by simp), fun _ => rfl⟩
  · split
    · exact ⟨rfl, fun hv => absurd hv (by simp), fun _ => rfl⟩
    · split
      · exact ⟨rfl, fun hv => absurd hv (by simp), fun _ => rfl⟩
      · split
        · exact ⟨rfl, fun hv => absurd hv (by simp), fun _ => rfl⟩
        · exact ⟨rfl, fun _ => rfl, fun hv => absurd hv (by simp)⟩

/-! ## Malformed-signature handling and case sensitivity -/

theorem bigIntHex?_eq_none {cs : List Char}
    (h : trimEndWs cs = [] ∨ (trimEndWs cs).all isHexDigit = false) :
    bigIntHex? cs = none := by
  rw [bigIntHex?, if_neg]
  rintro ⟨hne, hall⟩
  rcases h with h | h
  · exact hne h
  · rw [h] at hall
    exact absurd hall (by simp)

/-- C9 (amended): `verifySignature` returns `false`, without throwing, when
the expected address is not `0x` + 40 hex characters, or when the signature
lacks the `0x` prefix or is not exactly 132 characters long, or when the
64-character `r` or `s` field makes `BigInt` throw — that is, when the
field, after trailing JavaScript whitespace is trimmed, is empty or still
contains a non-hex character.  No more than that is guaranteed: the two
recovery characters are exempt (`parseInt` accepts any hex prefix of them)
and so is trailing whitespace in `r`/`s` (`BigInt` trims it), so a
132-character signature that is not `0x` + 130 hex characters can still
verify (see the counterexample). -/
theorem verifySignature_rejects_malformed {P : Type} (p : Prims P)
    (sig : String) (payload : P) (addr : String)
    (h : addrFormatOk addr = false ∨ sigFormatOk sig = false ∨
      trimEndWs ((sig.data.drop 2).take 64) = [] ∨
      (trimEndWs ((sig.data.drop 2).take 64)).all isHexDigit = false ∨
      trimEndWs (((sig.data.drop 2).drop 64).take 64) = [] ∨
      (trimEndWs (((sig.data.drop 2).drop 64).take 64)).all isHexDigit = false) :
    verifySignature p sig payload addr = false := by
  by_cases hafmt : addrFormatOk addr
  case neg => simp [verifySignature, hafmt]
  by_cases hsfmt : sigFormatOk sig
  case neg => simp [verifySignature, hafmt, hsfmt]
  simp only [verifySignature, hafmt, hsfmt, Bool.not_true, Bool.false_eq_true,
    if_false]
  rcases h with h | h | h | h | h | h
  · rw [hafmt] at h
    exact absurd h (by simp)
  · rw [hsfmt] at h
    exact absurd h (by simp)
  · rw [bigIntHex?_eq_none (Or.inl h)]
  · rw [bigIntHex?_eq_none (Or.inr h)]
  · rw [bigIntHex?_eq_none (Or.inl h)]
    cases bigIntHex? ((sig.data.drop 2).take 64) <;> rfl
  · rw [bigIntHex?_eq_none (Or.inr h)]
    cases bigIntHex? ((sig.data.drop 2).take 64) <;> rfl

/-- Witness for C9's amended theorem: a malformed signature string is
rejected without an exception. -/
theorem verifySignature_rejects_malformed_witness :
    verifySignature toyTs "not-a-signature" 0 cAddr = false :=
  verifySignature_rejects_malformed toyTs "not-a-signature" 0 cAddr
    (Or.inr (Or.inl (by decide)))

/-- A 132-character signature whose recovery bytes are the non-hex text
`1z`; everything before them is the valid concrete signature. -/
def cSigBad : String :=
  "0x" ++ (⟨natToHexPad 5 64 ++ natToHexPad 6 64⟩ : String) ++ "1z"

/-- A 132-character signature whose `s` field is the valid 64-hex field with
its leading `0` dropped and a trailing space appended — `BigInt` trims the
space and parses the same value. -/
def cSigWs : String :=
  "0x" ++ (⟨natToHexPad 5 64 ++ ((natToHexPad 6 64).drop 1 ++ [' '])⟩ : String)
    ++ "01"

/-- Counterexample to C9 as stated: two signatures that are not `0x`
followed by 130 hex characters yet verify as `true` — `cSigBad`, whose
recovery characters `1z` are parsed by `parseInt('1z', 16)` as the prefix
`1`, and `cSigWs`, whose `s` field carries a trailing space that `BigInt`
trims away. -/
theorem verifySignature_nonhex_cex :
    (verifySignature toyTs cSigBad 0 cAddr = true ∧
     cSigBad.length = 132 ∧ cSigBad.data.take 2 = ['0', 'x'] ∧
     (cSigBad.data.drop 2).all isHexDigit = false ∧
     parseInt16 "1z" = some 1) ∧
    (verifySignature toyTs cSigWs 0 cAddr = true ∧
     cSigWs.length = 132 ∧ cSigWs.data.take 2 = ['0', 'x'] ∧
     (cSigWs.data.drop 2).all isHexDigit = false) := by decide

/-- C10: one signed request, verified once with the lowercase address header
and once with an uppercase rendering of the same address: both are accepted
(the address comparison lowercases both sides), yet the two runs return
different identifiers, because `generateId` hashes the address exactly as
supplied. -/
theorem verify_case_insensitive_distinct_ids :
    deriveAddress toyTs cKey = some cAddr ∧
    signPayload toyTs 0 cKey = some cSig ∧
    verify toyTs ⟨some cAddr, some "x", some cSig⟩ none 0 =
      ⟨true, some (generateId cAddr)⟩ ∧
    verify toyTs ⟨some cAddrUp, some "x", some cSig⟩ none 0 =
      ⟨true, some (generateId cAddrUp)⟩ ∧
    toLowerCase cAddrUp = cAddr ∧ cAddrUp ≠ cAddr ∧
    generateId cAddr ≠ generateId cAddrUp := by decide

end AgentAuth


